import Mathlib

/-!
Shallow embedding of the OHLC candle aggregation pipeline (`main.go`).

Modelling conventions:
* Instants (`time.Time`) are UTC epoch seconds, modelled as `Int`.  All
  timestamps handled by the program are whole seconds (the input layout is
  `2006-01-02 15:04:05`), so no sub-second component exists.
* Prices (`float64`) are modelled as `ℚ`.  The program only compares prices
  and copies them, so any linearly ordered field is faithful.
* `Duration.Minutes()` and `Time.Sub(..).Minutes()` return `float64` minute
  counts.  For whole-second operands the comparison boundaries used by the
  program (`diff >= d.Minutes()`, `|diff-d| >= d`) lie on exactly
  representable values and the operands are within 2^-50 relative rounding
  of multiples of 1/60, so exact rational arithmetic decides every such
  comparison the same way the float computation does; `ℚ` is used.
* Go `map[string]Candle` is modelled as an association list
  `List (String × Candle)`; iteration order of a Go map is unspecified, and
  no claim below depends on the relative order of candles emitted within a
  single `sendCandles` drain (they all carry the same `windowStart`).
* Channels: `sendCandles`/`handleCandle` use an internal `done` channel that
  makes the goroutine synchronous with its caller, so each handler call is
  modelled as a pure step function.  Whether the handler ever signals its
  caller on `doneFunc` is recorded in the `signaled` field of the result.
-/

/-- Scale constant `Five = iota` from the const block (with `Thirty`,
`TwoHForty`, `Unknown` following). -/
def Five : Nat := 0

/-- Scale constant `Thirty`. -/
def Thirty : Nat := 1

/-- Scale constant `TwoHForty`. -/
def TwoHForty : Nat := 2

/-- Scale constant `Unknown`. -/
def Unknown : Nat := 3

/-- The `Candle` struct of `main.go`: ticker, open/max/min/close prices,
an instant (epoch seconds) and a scale tag. -/
structure Candle where
  ticker : String
  openPrice : ℚ
  maxPrice : ℚ
  minPrice : ℚ
  closePrice : ℚ
  time : Int
  scale : Nat
  deriving Repr, DecidableEq

/-- Seconds in a day. -/
def secPerDay : Int := 86400

/-- Function `numMin` from `sleep`: `h*60 + m` of the instant's UTC clock.  For an
epoch-seconds instant the clock minutes-of-day is the Euclidean remainder
modulo 86400, divided by 60. -/
def numMin (t : Int) : Int := (t.emod secPerDay) / 60

/-- Epoch seconds of `time.Date(2006, 1, 2, 0, 0, 0, 0, time.UTC)`. -/
def sleepStart : Int := 1136160000

/-- Epoch seconds of `time.Date(2006, 1, 2, 7, 0, 0, 0, time.UTC)`. -/
def sleepEnd : Int := 1136185200

/-- Function `sleep(t, s, e)`: `numMin(t) >= numMin(s) && numMin(t) < numMin(e)`. -/
def sleep (t s e : Int) : Bool := numMin t ≥ numMin s && numMin t < numMin e

/-- Function `inWorkInterval(t)`: not asleep between the 00:00 and 07:00 markers. -/
def inWorkInterval (t : Int) : Bool := !sleep t sleepStart sleepEnd

/-- Function `updatePrice(o, n)`: raise `maxPrice`, lower `minPrice`, set
`closePrice` to the new trade's price (carried in `n.openPrice`). -/
def updatePrice (o n : Candle) : Candle :=
  { o with
    maxPrice := if o.maxPrice < n.openPrice then n.openPrice else o.maxPrice
    minPrice := if o.minPrice > n.openPrice then n.openPrice else o.minPrice
    closePrice := n.openPrice }

/-- Function `updateCandle(candles, c)`: update the entry for `c.ticker` with
`updatePrice` if present, otherwise insert `c` itself. -/
def updateCandle (candles : List (String × Candle)) (c : Candle) :
    List (String × Candle) :=
  if (candles.lookup c.ticker).isSome then
    candles.map fun p => if p.1 = c.ticker then (p.1, updatePrice p.2 c) else p
  else
    candles ++ [(c.ticker, c)]

/-- Value of `d.Minutes()` for a whole-second duration `d` (seconds). -/
def minutesOf (d : Int) : ℚ := (d : ℚ) / 60

/-- Function `diffMoreThanScale(diff, d)`: `diff >= d.Minutes() && |diff - d.Minutes()| >= d.Minutes()`. -/
def diffMoreThanScale (diff : ℚ) (d : Int) : Bool :=
  diff ≥ minutesOf d && |diff - minutesOf d| ≥ minutesOf d

/-- Function `sendCandles(candles, st, sc, out, done)`: emit every open candle tagged
with window start `st` and scale `sc` (the map is cleared by the caller side
of the model; the function returns the emitted list). -/
def sendCandles (candles : List (String × Candle)) (st : Int) (sc : Nat) :
    List Candle :=
  candles.map fun p => { p.2 with time := st, scale := sc }

/-- Aggregator state owned by one `handleCandle` closure: the captured
`startTime` and the `candles` map. -/
structure AggState where
  startTime : Int
  candles : List (String × Candle)
  deriving Repr, DecidableEq

/-- Result of one handler invocation: the new captured state, the candles
pushed to `out`, and whether `doneFunc <- true` was executed. -/
structure StepResult where
  state : AggState
  emitted : List Candle
  signaled : Bool
  deriving Repr, DecidableEq

/-- Epoch seconds of the `Start` constant `2019-01-30T07:00:00Z`. -/
def startEpoch : Int := 1548831600

/-- Lookup `scales[d]` for a whole-second duration: the Go map lookup, whose zero
value on a miss is `Five`. -/
def scaleOfDuration (d : Int) : Nat :=
  if d = 300 then Five else if d = 1800 then Thirty
  else if d = 14400 then TwoHForty else Five

/-- One invocation of the closure returned by `handleCandle(d)` (duration
`d` in seconds) on trade `c`, from state `s`.  Mirrors the branch structure
of the goroutine body: non-sentinel trades first check
`diff >= d.Minutes()`, drain the map, then resync / advance / drop; the
sentinel (empty ticker) drains the map.  `signaled = false` exactly on the
drop branch, which `return`s before `doneFunc <- true`. -/
def handleStep (d : Int) (s : AggState) (c : Candle) : StepResult :=
  if c.ticker ≠ "" then
    let diff : ℚ := minutesOf (c.time - s.startTime)
    if diff ≥ minutesOf d then
      let emitted := sendCandles s.candles s.startTime (scaleOfDuration d)
      if diffMoreThanScale diff d then
        { state := { startTime := c.time, candles := updateCandle [] c }
          emitted := emitted, signaled := true }
      else if inWorkInterval (s.startTime + d) then
        { state := { startTime := s.startTime + d, candles := updateCandle [] c }
          emitted := emitted, signaled := true }
      else
        { state := { startTime := s.startTime, candles := [] }
          emitted := emitted, signaled := false }
    else
      { state := { s with candles := updateCandle s.candles c }
        emitted := [], signaled := true }
  else
    { state := { s with candles := [] }
      emitted := sendCandles s.candles s.startTime (scaleOfDuration d)
      signaled := true }

/-- The sentinel `Candle{}` sent by `processing` at end of stream: Go zero
values (the zero `time.Time` predates the epoch; its exact value is never
read on the sentinel path). -/
def sentinel : Candle :=
  { ticker := "", openPrice := 0, maxPrice := 0, minPrice := 0
    closePrice := 0, time := 0, scale := Five }

/-- State of `processing`: the three aggregator closures created by
`handleCandle(5m)`, `handleCandle(30m)`, `handleCandle(240m)`. -/
structure ProcState where
  a5 : AggState
  a30 : AggState
  a240 : AggState
  deriving Repr, DecidableEq

/-- Initial state of each aggregator: `startTime` parsed from `Start`,
empty map. -/
def initAgg : AggState := { startTime := startEpoch, candles := [] }

/-- Initial `processing` state. -/
def initProc : ProcState := { a5 := initAgg, a30 := initAgg, a240 := initAgg }

/-- Fan one admitted trade out to the three handlers in fixed order
(5m, 30m, 240m), waiting on `done` after each.  If a handler never
signals, the orchestrator blocks on `<-done`: later handlers are not
invoked and the returned flag is `false`. -/
def ingestTrade (ps : ProcState) (c : Candle) :
    ProcState × List Candle × Bool :=
  let r5 := handleStep 300 ps.a5 c
  if r5.signaled then
    let r30 := handleStep 1800 ps.a30 c
    if r30.signaled then
      let r240 := handleStep 14400 ps.a240 c
      ({ a5 := r5.state, a30 := r30.state, a240 := r240.state },
        r5.emitted ++ r30.emitted ++ r240.emitted, r240.signaled)
    else
      ({ a5 := r5.state, a30 := r30.state, a240 := ps.a240 },
        r5.emitted ++ r30.emitted, false)
  else
    ({ a5 := r5.state, a30 := ps.a30, a240 := ps.a240 }, r5.emitted, false)

/-- One iteration of the `for rec := range in` loop of `processing` on an
already-parsed trade: apply the session filter, then fan out.  Once the
orchestrator is blocked (`ok = false`) nothing further happens. -/
def procStep (acc : ProcState × List Candle × Bool) (c : Candle) :
    ProcState × List Candle × Bool :=
  let (ps, em, ok) := acc
  if ok then
    if inWorkInterval c.time then
      let (ps2, em2, ok2) := ingestTrade ps c
      (ps2, em ++ em2, ok2)
    else (ps, em, true)
  else (ps, em, false)

/-- The trade loop of `processing` over a list of parsed trades. -/
def runProcessing (trades : List Candle) : ProcState × List Candle × Bool :=
  trades.foldl procStep (initProc, [], true)

/-- Full `processing` run: the trade loop followed (if the orchestrator is
not blocked) by the end-of-stream flush, which sends the sentinel to each
handler in the same fixed order. -/
def processing (trades : List Candle) : ProcState × List Candle × Bool :=
  let (ps, em, ok) := runProcessing trades
  if ok then
    let (ps2, em2, ok2) := ingestTrade ps sentinel
    (ps2, em ++ em2, ok2)
  else (ps, em, false)

/-- Left-pad a number to two digits. -/
def pad2 (n : Nat) : String := if n < 10 then "0" ++ toString n else toString n

/-- Left-pad a number to four digits (RFC3339 year field). -/
def pad4 (n : Nat) : String :=
  if n < 10 then "000" ++ toString n
  else if n < 100 then "00" ++ toString n
  else if n < 1000 then "0" ++ toString n
  else toString n

/-- Convert a count of days since 1970-01-01 to a civil `(year, month, day)`
date (proleptic Gregorian), the standard era-based algorithm used by
`time.Time`'s date computation. -/
def civilFromDays (z0 : Int) : Int × Nat × Nat :=
  let z := z0 + 719468
  let era : Int := (if 0 ≤ z then z else z - 146096) / 146097
  let doe : Nat := (z - era * 146097).toNat
  let yoe : Nat := (doe - doe / 1460 + doe / 36524 - doe / 146096) / 365
  let doy : Nat := doe - (365 * yoe + yoe / 4 - yoe / 100)
  let mp : Nat := (5 * doy + 2) / 153
  let dd : Nat := doy - (153 * mp + 2) / 5 + 1
  let mm : Nat := if mp < 10 then mp + 3 else mp - 9
  let y : Int := (yoe : Int) + era * 400 + (if mm ≤ 2 then 1 else 0)
  (y, mm, dd)

/-- Inverse of `civilFromDays`: days since 1970-01-01 of a civil date. -/
def daysFromCivil (y0 : Int) (m d : Nat) : Int :=
  let y := y0 - (if m ≤ 2 then 1 else 0)
  let era : Int := (if 0 ≤ y then y else y - 399) / 400
  let yoe : Nat := (y - era * 400).toNat
  let mp : Nat := if 2 < m then m - 3 else m + 9
  let doy : Nat := (153 * mp + 2) / 5 + d - 1
  let doe : Nat := yoe * 365 + yoe / 4 - yoe / 100 + doy
  era * 146097 + (doe : Int) - 719468

/-- Rendering `c.time.Format(time.RFC3339)` for a UTC instant in epoch seconds:
`YYYY-MM-DDTHH:MM:SSZ`. -/
def formatRFC3339 (t : Int) : String :=
  let days := Int.fdiv t secPerDay
  let sod := (t.emod secPerDay).toNat
  let c := civilFromDays days
  pad4 c.1.toNat ++ "-" ++ pad2 c.2.1 ++ "-" ++ pad2 c.2.2 ++ "T" ++
    pad2 (sod / 3600) ++ ":" ++ pad2 (sod % 3600 / 60) ++ ":" ++
    pad2 (sod % 60) ++ "Z"

/-- Rendering of one price field.  `strconv.FormatFloat(f, 'f', -1, 64)`
prints the shortest decimal string that round-trips the binary float64;
binary floating point lies outside this embedding, so the exact rational is
printed instead.  Every claim about serialization concerns which field is
printed at which position, never the digit string itself. -/
def formatFloat (q : ℚ) : String := toString q

/-- Method `Candle.toSlice()`: build the output record by successive appends, in
the source order ticker, formatted time, open, max, min, close. -/
def toSlice (c : Candle) : List String :=
  let s : List String := []
  let s := s ++ [c.ticker]
  let t := formatRFC3339 c.time
  let s := s ++ [t]
  let pr := formatFloat c.openPrice
  let s := s ++ [pr]
  let pr := formatFloat c.maxPrice
  let s := s ++ [pr]
  let pr := formatFloat c.minPrice
  let s := s ++ [pr]
  let pr := formatFloat c.closePrice
  let s := s ++ [pr]
  s

/-- The output file names passed to `write` by `pipeline`, indexed by the
scale constants. -/
def fileNames : List String :=
  ["candles_5min.csv", "candles_30min.csv", "candles_240min.csv"]

/-- The destination picked by the `switch` in `write` for one candle: the
index into `files` (opened from the names list in order).  A scale outside
the three known constants leaves the writer unassigned (`none` models the
nil `*csv.Writer`). -/
def writeTarget (c : Candle) : Option Nat :=
  if c.scale = Five then some Five
  else if c.scale = Thirty then some Thirty
  else if c.scale = TwoHForty then some TwoHForty
  else none

/-- Digit run to a number: `none` unless the run is nonempty and all
digits. -/
def digitsToNat (l : List Char) : Option Nat :=
  if l ≠ [] ∧ l.all Char.isDigit then
    some (l.foldl (fun a c => a * 10 + (c.toNat - 48)) 0)
  else none

/-- Model of `strconv.ParseFloat(s, 64)` restricted to the plain decimal
numerals trade files contain: optional sign, a nonempty digit run,
optionally a dot followed by a nonempty digit run.  (The Go parser also
accepts exponents, hex floats, and Inf/NaN spellings, none of which occur
in trade records; on every string used below acceptance coincides.) -/
def parseFloat (s : String) : Option ℚ :=
  let p : ℚ × List Char :=
    match s.data with
    | '-' :: rest => (-1, rest)
    | '+' :: rest => (1, rest)
    | cs => (1, cs)
  let intPart := p.2.takeWhile (· ≠ '.')
  match p.2.dropWhile (· ≠ '.') with
  | [] => (digitsToNat intPart).map fun n => p.1 * n
  | _ :: frac =>
    match digitsToNat intPart, digitsToNat frac with
    | some n, some f =>
      some (p.1 * ((n : ℚ) + (f : ℚ) / (10 : ℚ) ^ frac.length))
    | _, _ => none

/-- Gregorian leap year. -/
def isLeap (y : Int) : Bool := y % 4 = 0 && (y % 100 ≠ 0 || y % 400 = 0)

/-- Length of a month, as validated by `time.Parse`. -/
def daysInMonth (y : Int) (m : Nat) : Nat :=
  if m = 2 then (if isLeap y then 29 else 28)
  else if m = 4 ∨ m = 6 ∨ m = 9 ∨ m = 11 then 30
  else 31

/-- Parsing `time.Parse("2006-01-02 15:04:05", s)` for a UTC timestamp: exact-width
zero-padded fields, with Go's range validation (month 1..12, day within
the month, clock fields in range), to an epoch-seconds instant. -/
def parseTimestamp (s : String) : Option Int :=
  match s.data with
  | [y1, y2, y3, y4, '-', m1, m2, '-', d1, d2, ' ',
     h1, h2, ':', n1, n2, ':', s1, s2] =>
    if [y1, y2, y3, y4, m1, m2, d1, d2, h1, h2, n1, n2, s1, s2].all
        Char.isDigit then
      let num := fun (a b : Char) => (a.toNat - 48) * 10 + (b.toNat - 48)
      let y : Int := ((num y1 y2) * 100 + num y3 y4 : Nat)
      let mo := num m1 m2
      let dd := num d1 d2
      let hh := num h1 h2
      let mi := num n1 n2
      let ss := num s1 s2
      if 1 ≤ mo ∧ mo ≤ 12 ∧ 1 ≤ dd ∧ dd ≤ daysInMonth y mo ∧
          hh < 24 ∧ mi < 60 ∧ ss < 60 then
        some (daysFromCivil y mo dd * secPerDay +
          ((hh * 3600 + mi * 60 + ss : Nat) : Int))
      else none
    else none
  | _ => none

/-- Auxiliary recursion for `splitComma`. -/
def splitCommaAux : List Char → List Char → List String
  | [], acc => [String.mk acc.reverse]
  | ch :: rest, acc =>
    if ch = ',' then String.mk acc.reverse :: splitCommaAux rest []
    else splitCommaAux rest (ch :: acc)

/-- Model of `strings.Split(r, ",")`: split on every comma; the result always has
at least one element (the empty string splits to `[""]`). -/
def splitComma (s : String) : List String := splitCommaAux s.data []

/-- Function `makeCandle(r)`: split the record on commas and read fields 1 (price)
and 3 (timestamp).  The two index accesses have no length guard, so `none`
models the index-out-of-range panic; `some (Except.error _)` models the
returned error value; `some (Except.ok _)` success.  The final
`time.Parse(RFC3339, t.Format(RFC3339))` round-trip in the source is the
identity on every instant the first parse can produce and is modelled as
such. -/
def makeCandle (r : String) : Option (Except String Candle) :=
  let fields := splitComma r
  match fields[1]? with
  | none => none
  | some priceStr =>
    match parseFloat priceStr with
    | none => some (Except.error "cannot convert price string into float64")
    | some pr =>
      match fields[3]? with
      | none => none
      | some timeStr =>
        match parseTimestamp timeStr with
        | none => some (Except.error "cannot convert initial time string into Time")
        | some t =>
          some (Except.ok
            { ticker := fields.headI, openPrice := pr, maxPrice := pr
              minPrice := pr, closePrice := pr, time := t, scale := Unknown })

/-- The OHLC price invariant of one candle. -/
def candleWF (c : Candle) : Prop :=
  c.minPrice ≤ c.openPrice ∧ c.openPrice ≤ c.maxPrice ∧
    c.minPrice ≤ c.closePrice ∧ c.closePrice ≤ c.maxPrice

/-- Every value of an open-candle map satisfies the OHLC invariant. -/
def mapWF (m : List (String × Candle)) : Prop := ∀ p ∈ m, candleWF p.2

/-- Invariant carried through the `processing` trade loop for C4. -/
def procWF (acc : ProcState × List Candle × Bool) : Prop :=
  mapWF acc.1.a5.candles ∧ mapWF acc.1.a30.candles ∧
    mapWF acc.1.a240.candles ∧ ∀ e ∈ acc.2.1, candleWF e

/-- The orchestrator's interaction with a single aggregator of duration
`d`, projected out of the trade loop: each admitted trade is one handler
invocation awaited on `done`; if the handler never signals, the
orchestrator is blocked and no further trade reaches the aggregator. -/
def aggStep (d : Int) (acc : AggState × List Candle × Bool) (c : Candle) :
    AggState × List Candle × Bool :=
  let (s, em, ok) := acc
  if ok then
    let r := handleStep d s c
    (r.state, em ++ r.emitted, r.signaled)
  else (s, em, false)

/-- Run one aggregator over the sequence of trades delivered to it. -/
def runAgg (d : Int) (trades : List Candle) : AggState × List Candle × Bool :=
  trades.foldl (aggStep d) (initAgg, [], true)

/-- Well-formedness of an open-candle map as a Go map image: keys are
distinct and each stored candle carries its key as ticker. -/
def goodMap (m : List (String × Candle)) : Prop :=
  (m.map Prod.fst).Nodup ∧ ∀ p ∈ m, p.2.ticker = p.1

/-! ### Helper lemmas -/

theorem minutesOf_nonneg {d : Int} (hd : 0 ≤ d) : 0 ≤ minutesOf d := by
  unfold minutesOf
  have : (0 : ℚ) ≤ (d : ℚ) := by exact_mod_cast hd
  positivity

theorem diffMoreThanScale_eq_true_iff (diff : ℚ) (d : Int) (hd : 0 ≤ d) :
    diffMoreThanScale diff d = true ↔ 2 * minutesOf d ≤ diff := by
  unfold diffMoreThanScale
  rw [Bool.and_eq_true, decide_eq_true_eq, decide_eq_true_eq]
  constructor
  · rintro ⟨h1, h2⟩
    rw [abs_of_nonneg (sub_nonneg.mpr h1)] at h2
    linarith
  · intro h
    have h0 : (0 : ℚ) ≤ minutesOf d := minutesOf_nonneg hd
    refine ⟨by linarith, ?_⟩
    rw [abs_of_nonneg (by linarith)]
    linarith

/-- C1: in the drop branch the previous window is drained, the map is
cleared, `startTime` is untouched, the trade is not ingested, and the
handler never signals. -/
theorem handleStep_drop (d : Int) (s : AggState) (c : Candle)
    (hc : c.ticker ≠ "")
    (h1 : minutesOf d ≤ minutesOf (c.time - s.startTime))
    (h2 : minutesOf (c.time - s.startTime) < 2 * minutesOf d)
    (h3 : inWorkInterval (s.startTime + d) = false) :
    handleStep d s c =
      { state := { startTime := s.startTime, candles := [] }
        emitted := sendCandles s.candles s.startTime (scaleOfDuration d)
        signaled := false } := by
  have hd0 : (0 : ℚ) ≤ minutesOf d := by
    by_contra hneg
    push_neg at hneg
    linarith
  have hdInt : 0 ≤ d := by
    by_contra hneg
    push_neg at hneg
    have : minutesOf d < 0 := by
      unfold minutesOf
      have : (d : ℚ) < 0 := by exact_mod_cast hneg
      exact div_neg_of_neg_of_pos this (by norm_num)
    linarith
  have hnr : ¬ (diffMoreThanScale (minutesOf (c.time - s.startTime)) d = true) := by
    rw [diffMoreThanScale_eq_true_iff _ _ hdInt]
    linarith
  simp only [handleStep]
  rw [if_pos hc, if_pos h1, if_neg hnr, if_neg (by simp [h3])]

/-- Witness for C1: a 5-minute aggregator sitting at 2019-01-30T23:55:00Z
with one open candle receives a trade at 2019-01-31T00:00:00Z (diff = 5
minutes, rollover target midnight, outside the session): the old window is
drained, the map is cleared, the window start stays, and no completion
signal is sent. -/
theorem handleStep_drop_witness :
    handleStep 300
      { startTime := 1548892500
        candles := [("X", { ticker := "X", openPrice := 100, maxPrice := 101
                            minPrice := 99, closePrice := 100
                            time := 1548892400, scale := 3 })] }
      { ticker := "X", openPrice := 50, maxPrice := 50, minPrice := 50
        closePrice := 50, time := 1548892800, scale := 3 } =
      { state := { startTime := 1548892500, candles := [] }
        emitted := [{ ticker := "X", openPrice := 100, maxPrice := 101
                      minPrice := 99, closePrice := 100
                      time := 1548892500, scale := 0 }]
        signaled := false } := by
  rw [handleStep_drop 300 _ _ (by decide) (by norm_num [minutesOf])
    (by norm_num [minutesOf]) (by decide)]
  rfl

/-- C3: the resync test `diff >= d.Minutes() && |diff - d.Minutes()| >=
d.Minutes()` is equivalent to `diff >= 2 d.Minutes()`; on any non-sentinel
ingest with `diff >= d.Minutes()` the open candles are all emitted tagged
with the old window start, a resync sets the window start to the trade's
own timestamp, and an in-session single-width rollover advances it by
exactly `d`. -/
theorem rollover_resync_advance (d : Int) (hd : 0 ≤ d) :
    (∀ diff : ℚ, diffMoreThanScale diff d = true ↔ 2 * minutesOf d ≤ diff) ∧
    (∀ (s : AggState) (c : Candle), c.ticker ≠ "" →
      minutesOf d ≤ minutesOf (c.time - s.startTime) →
      (handleStep d s c).emitted =
          sendCandles s.candles s.startTime (scaleOfDuration d) ∧
        (2 * minutesOf d ≤ minutesOf (c.time - s.startTime) →
          (handleStep d s c).state.startTime = c.time) ∧
        (minutesOf (c.time - s.startTime) < 2 * minutesOf d →
          inWorkInterval (s.startTime + d) = true →
          (handleStep d s c).state.startTime = s.startTime + d)) := by
  refine ⟨fun diff => diffMoreThanScale_eq_true_iff diff d hd, ?_⟩
  intro s c hc h1
  simp only [handleStep]
  rw [if_pos hc, if_pos h1]
  by_cases hr : diffMoreThanScale (minutesOf (c.time - s.startTime)) d = true
  · rw [if_pos hr]
    refine ⟨rfl, fun _ => rfl, fun hlt _ => ?_⟩
    rw [diffMoreThanScale_eq_true_iff _ _ hd] at hr
    linarith
  · rw [if_neg hr]
    have h2d : ¬ 2 * minutesOf d ≤ minutesOf (c.time - s.startTime) := by
      rw [← diffMoreThanScale_eq_true_iff _ _ hd]
      exact hr
    by_cases hw : inWorkInterval (s.startTime + d) = true
    · rw [if_pos hw]
      exact ⟨rfl, fun h => absurd h h2d, fun _ _ => rfl⟩
    · rw [if_neg hw]
      exact ⟨rfl, fun h => absurd h h2d, fun _ hw2 => absurd hw2 hw⟩

/-- Witness for C3: the 5-minute aggregator at the configured epoch
2019-01-30T07:00:00Z resyncs to a trade at 09:00:00Z (diff = 120 minutes,
more than two window widths): the new window start is exactly the trade's
timestamp. -/
theorem rollover_resync_advance_witness :
    (handleStep 300 { startTime := 1548831600, candles := [] }
      { ticker := "X", openPrice := 10, maxPrice := 10, minPrice := 10
        closePrice := 10, time := 1548838800, scale := 3 }).state.startTime =
      1548838800 := by
  have h := (rollover_resync_advance 300 (by decide)).2
    { startTime := 1548831600, candles := [] }
    { ticker := "X", openPrice := 10, maxPrice := 10, minPrice := 10
      closePrice := 10, time := 1548838800, scale := 3 }
    (by decide) (by norm_num [minutesOf])
  exact h.2.1 (by norm_num [minutesOf])

theorem procStep_stuck (acc : ProcState × List Candle × Bool) (c : Candle)
    (h : acc.2.2 = false) : procStep acc c = acc := by
  obtain ⟨ps, em, ok⟩ := acc
  simp only at h
  subst h
  rfl

theorem foldl_procStep_stuck (l : List Candle)
    (acc : ProcState × List Candle × Bool) (h : acc.2.2 = false) :
    l.foldl procStep acc = acc := by
  induction l with
  | nil => rfl
  | cons c tl ih => rw [List.foldl_cons, procStep_stuck acc c h]; exact ih

/-- C2: a handler invocation fails to signal `doneFunc` exactly on the
defer/drop branch (non-sentinel trade, `diff >= d.Minutes()`, resync test
false, rollover target out of session); and once the trade loop has hit
that branch the orchestrator, which waits on `<-done` after every handler
call, processes no further trade and never reaches the end-of-stream
flush: the pipeline output is frozen at the blocking point. -/
theorem handler_signals_unless_drop :
    (∀ (d : Int) (s : AggState) (c : Candle),
      (handleStep d s c).signaled = false ↔
        (c.ticker ≠ "" ∧
          minutesOf d ≤ minutesOf (c.time - s.startTime) ∧
          diffMoreThanScale (minutesOf (c.time - s.startTime)) d = false ∧
          inWorkInterval (s.startTime + d) = false)) ∧
    (∀ (pre rest : List Candle),
      (runProcessing pre).2.2 = false →
      processing (pre ++ rest) = runProcessing pre) := by
  constructor
  · intro d s c
    simp only [handleStep]
    split_ifs with h1 h2 h3 h4 <;>
      simp_all [Bool.not_eq_true, ge_iff_le]
  · intro pre rest h
    have hrun : runProcessing (pre ++ rest) = runProcessing pre := by
      unfold runProcessing
      rw [List.foldl_append]
      exact foldl_procStep_stuck rest _ h
    rcases hpre : runProcessing pre with ⟨ps, em, ok⟩
    rw [hpre] at h
    simp only at h
    subst h
    unfold processing
    rw [hrun, hpre]
    rfl

/-- Witness for C2: two trades resync every aggregator to
2019-01-30T23:30:00Z and then hit the 240m drop branch at
2019-01-31T07:10:00Z, so a third trade is never processed and no flush
happens: the full run equals the trade loop stopped at the second trade. -/
theorem handler_signals_unless_drop_witness :
    processing
      [⟨"X", 10, 10, 10, 10, 1548891000, 3⟩,
       ⟨"X", 11, 11, 11, 11, 1548918600, 3⟩,
       ⟨"X", 12, 12, 12, 12, 1548920000, 3⟩] =
    runProcessing
      [⟨"X", 10, 10, 10, 10, 1548891000, 3⟩,
       ⟨"X", 11, 11, 11, 11, 1548918600, 3⟩] :=
  handler_signals_unless_drop.2
    [⟨"X", 10, 10, 10, 10, 1548891000, 3⟩, ⟨"X", 11, 11, 11, 11, 1548918600, 3⟩]
    [⟨"X", 12, 12, 12, 12, 1548920000, 3⟩]
    (by norm_num [runProcessing, procStep, ingestTrade, handleStep, inWorkInterval,
      sleep, numMin, sleepStart, sleepEnd, secPerDay, minutesOf, diffMoreThanScale,
      sendCandles, updateCandle, scaleOfDuration, initProc, initAgg, startEpoch,
      Five, Thirty, TwoHForty, Unknown, updatePrice, List.lookup,
      (show ("X" : String) ≠ "" from by decide)])

theorem procStep_skip (acc : ProcState × List Candle × Bool) (c : Candle)
    (h : inWorkInterval c.time = false) : procStep acc c = acc := by
  obtain ⟨ps, em, ok⟩ := acc
  cases ok
  · rfl
  · simp [procStep, h]

theorem foldl_procStep_filter (l : List Candle) :
    ∀ acc, (l.filter fun c => inWorkInterval c.time).foldl procStep acc =
      l.foldl procStep acc := by
  induction l with
  | nil => intro acc; rfl
  | cons c tl ih =>
    intro acc
    by_cases hc : inWorkInterval c.time = true
    · simp only [List.filter_cons, hc, if_pos, List.foldl_cons]
      exact ih _
    · rw [Bool.not_eq_true] at hc
      simp only [List.filter_cons, hc, Bool.false_eq_true, if_false,
        List.foldl_cons, procStep_skip acc c hc]
      exact ih _

/-- C6: the session predicate rejects exactly the instants whose UTC
time-of-day lies in [00:00, 07:00) — equivalently, whose second-of-day is
below 25200, or whose minute-of-day (the quantity the code compares) is
below 420 — and the trade loop of `processing` is invariant under
pre-filtering the stream with the predicate: filtered-out trades reach no
aggregator and contribute to no emission. -/
theorem session_exclusion :
    (∀ t : Int, inWorkInterval t = false ↔
      0 ≤ t.emod secPerDay ∧ t.emod secPerDay < 25200) ∧
    (∀ t : Int, inWorkInterval t = false ↔ numMin t < 420) ∧
    (∀ trades : List Candle,
      processing trades =
        processing (trades.filter fun c => inWorkInterval c.time)) := by
  have hmod : ∀ t : Int, 0 ≤ t.emod secPerDay ∧ t.emod secPerDay < 86400 := by
    intro t
    refine ⟨Int.emod_nonneg t (by norm_num [secPerDay]), ?_⟩
    have := Int.emod_lt_of_pos t (show (0:Int) < secPerDay by norm_num [secPerDay])
    simpa [secPerDay] using this
  have key : ∀ t : Int, inWorkInterval t = false ↔ numMin t < 420 := by
    intro t
    have h0 : 0 ≤ t.emod secPerDay := (hmod t).1
    simp only [inWorkInterval, sleep, Bool.not_eq_false', Bool.and_eq_true,
      decide_eq_true_eq]
    constructor
    · rintro ⟨-, h⟩
      have : numMin sleepEnd = 420 := by norm_num [numMin, sleepEnd, secPerDay]
      omega
    · intro h
      have h1 : numMin sleepStart = 0 := by norm_num [numMin, sleepStart, secPerDay]
      have h2 : numMin sleepEnd = 420 := by norm_num [numMin, sleepEnd, secPerDay]
      have h3 : 0 ≤ numMin t := by
        unfold numMin
        omega
      omega
  refine ⟨?_, key, ?_⟩
  · intro t
    rw [key t]
    unfold numMin
    have := hmod t
    omega
  · intro trades
    unfold processing
    rw [show runProcessing (trades.filter fun c => inWorkInterval c.time) =
      runProcessing trades from foldl_procStep_filter trades _]

theorem lookup_map_update (m : List (String × Candle)) (k : String)
    (g : Candle → Candle) :
    (m.map fun p => if p.1 = k then (p.1, g p.2) else p).lookup k =
      (m.lookup k).map g := by
  induction m with
  | nil => rfl
  | cons a tl ih =>
    obtain ⟨ka, va⟩ := a
    simp only [List.map_cons]
    by_cases h : ka = k
    · subst h
      rw [if_pos rfl]
      simp [List.lookup]
    · rw [if_neg h]
      have hb : (k == ka) = false := beq_eq_false_iff_ne.mpr (Ne.symm h)
      simp [List.lookup, hb, ih]

/-- C7: a non-deferred ingest creates the ticker's candle from the trade
itself when absent (all four prices equal to the trade price, as built by
`makeCandle`), and otherwise updates it: `high = max`, `low = min`,
`close = price`, `open` untouched.  Scenario A: trades for `X` at prices
10, 12, 9 inside one 5-minute window yield the candle
open=10, high=12, low=9, close=9 at every resolution. -/
theorem ingest_update_or_create :
    (∀ (m : List (String × Candle)) (c : Candle),
      m.lookup c.ticker = none →
      updateCandle m c = m ++ [(c.ticker, c)]) ∧
    (∀ (m : List (String × Candle)) (c o : Candle),
      m.lookup c.ticker = some o →
      (updateCandle m c).lookup c.ticker = some (updatePrice o c)) ∧
    (∀ o n : Candle,
      (updatePrice o n).openPrice = o.openPrice ∧
      (updatePrice o n).maxPrice = max o.maxPrice n.openPrice ∧
      (updatePrice o n).minPrice = min o.minPrice n.openPrice ∧
      (updatePrice o n).closePrice = n.openPrice) ∧
    ((processing
        [⟨"X", 10, 10, 10, 10, 1548831600, 3⟩,
         ⟨"X", 12, 12, 12, 12, 1548831660, 3⟩,
         ⟨"X", 9, 9, 9, 9, 1548831720, 3⟩]).2.1 =
      [⟨"X", 10, 12, 9, 9, 1548831600, 0⟩,
       ⟨"X", 10, 12, 9, 9, 1548831600, 1⟩,
       ⟨"X", 10, 12, 9, 9, 1548831600, 2⟩]) := by
  refine ⟨?_, ?_, ?_, ?_⟩
  · intro m c h
    unfold updateCandle
    rw [h]
    rfl
  · intro m c o h
    unfold updateCandle
    rw [if_pos (by rw [h]; rfl)]
    rw [lookup_map_update m c.ticker (fun x => updatePrice x c), h]
    rfl
  · intro o n
    refine ⟨rfl, ?_, ?_, rfl⟩
    · show (if o.maxPrice < n.openPrice then n.openPrice else o.maxPrice) = _
      split_ifs with h
      · exact (max_eq_right h.le).symm
      · exact (max_eq_left (not_lt.1 h)).symm
    · show (if o.minPrice > n.openPrice then n.openPrice else o.minPrice) = _
      split_ifs with h
      · exact (min_eq_right h.le).symm
      · exact (min_eq_left (not_lt.1 h)).symm
  · norm_num [processing, runProcessing, procStep, ingestTrade, handleStep,
      inWorkInterval, sleep, numMin, sleepStart, sleepEnd, secPerDay, minutesOf,
      diffMoreThanScale, sendCandles, updateCandle, scaleOfDuration, initProc,
      initAgg, startEpoch, Five, Thirty, TwoHForty, Unknown, updatePrice,
      List.lookup, sentinel, (show ("X" : String) ≠ "" from by decide)]

/-- Witness for C7: updating an existing open candle for `X` (prices all
10) with a trade at price 12 yields the `updatePrice` result. -/
theorem ingest_update_or_create_witness :
    (updateCandle [("X", ⟨"X", 10, 10, 10, 10, 1548831600, 3⟩)]
        ⟨"X", 12, 12, 12, 12, 1548831660, 3⟩).lookup "X" =
      some (updatePrice ⟨"X", 10, 10, 10, 10, 1548831600, 3⟩
        ⟨"X", 12, 12, 12, 12, 1548831660, 3⟩) :=
  ingest_update_or_create.2.1 [("X", ⟨"X", 10, 10, 10, 10, 1548831600, 3⟩)]
    ⟨"X", 12, 12, 12, 12, 1548831660, 3⟩ ⟨"X", 10, 10, 10, 10, 1548831600, 3⟩
    (by rfl)

theorem processing_run_false (trades : List Candle) (ps : ProcState)
    (em : List Candle) (h : runProcessing trades = (ps, em, false)) :
    processing trades = (ps, em, false) := by
  unfold processing
  rw [h]
  rfl

theorem processing_run_true (trades : List Candle) (ps : ProcState)
    (em : List Candle) (h : runProcessing trades = (ps, em, true)) :
    processing trades =
      ((ingestTrade ps sentinel).1, em ++ (ingestTrade ps sentinel).2.1,
        (ingestTrade ps sentinel).2.2) := by
  unfold processing
  rw [h]
  rfl

theorem updatePrice_wf (o n : Candle) (h : candleWF o) :
    candleWF (updatePrice o n) := by
  obtain ⟨h1, h2, h3, h4⟩ := h
  unfold updatePrice candleWF
  dsimp only
  split_ifs <;>
    exact ⟨by linarith, by linarith, by linarith, by linarith⟩

theorem updateCandle_mapWF (m : List (String × Candle)) (c : Candle)
    (hm : mapWF m) (hc : candleWF c) : mapWF (updateCandle m c) := by
  unfold updateCandle
  split_ifs with h
  · intro p hp
    rw [List.mem_map] at hp
    obtain ⟨q, hq, rfl⟩ := hp
    by_cases h2 : q.1 = c.ticker
    · rw [if_pos h2]
      exact updatePrice_wf _ _ (hm q hq)
    · rw [if_neg h2]
      exact hm q hq
  · intro p hp
    rw [List.mem_append] at hp
    rcases hp with hp | hp
    · exact hm p hp
    · rw [List.mem_singleton] at hp
      rw [hp]
      exact hc

theorem sendCandles_wf (m : List (String × Candle)) (st : Int) (sc : Nat)
    (hm : mapWF m) : ∀ e ∈ sendCandles m st sc, candleWF e := by
  intro e he
  rw [sendCandles, List.mem_map] at he
  obtain ⟨p, hp, rfl⟩ := he
  exact hm p hp

theorem handleStep_state_mapWF (d : Int) (s : AggState) (c : Candle)
    (hs : mapWF s.candles) (hc : candleWF c) :
    mapWF (handleStep d s c).state.candles := by
  have hnil : mapWF [] := fun p hp => absurd hp (List.not_mem_nil p)
  simp only [handleStep]
  split_ifs
  · exact updateCandle_mapWF [] c hnil hc
  · exact updateCandle_mapWF [] c hnil hc
  · exact hnil
  · exact updateCandle_mapWF s.candles c hs hc
  · exact hnil

theorem handleStep_emitted_wf (d : Int) (s : AggState) (c : Candle)
    (hs : mapWF s.candles) : ∀ e ∈ (handleStep d s c).emitted, candleWF e := by
  simp only [handleStep]
  split_ifs
  · exact sendCandles_wf _ _ _ hs
  · exact sendCandles_wf _ _ _ hs
  · exact sendCandles_wf _ _ _ hs
  · exact fun e he => absurd he (List.not_mem_nil e)
  · exact sendCandles_wf _ _ _ hs

theorem ingestTrade_wf (ps : ProcState) (c : Candle)
    (h5 : mapWF ps.a5.candles) (h30 : mapWF ps.a30.candles)
    (h240 : mapWF ps.a240.candles) (hc : candleWF c) :
    mapWF (ingestTrade ps c).1.a5.candles ∧
      mapWF (ingestTrade ps c).1.a30.candles ∧
      mapWF (ingestTrade ps c).1.a240.candles ∧
      ∀ e ∈ (ingestTrade ps c).2.1, candleWF e := by
  simp only [ingestTrade]
  split_ifs
  · refine ⟨handleStep_state_mapWF _ _ _ h5 hc, handleStep_state_mapWF _ _ _ h30 hc,
      handleStep_state_mapWF _ _ _ h240 hc, ?_⟩
    intro e he
    rw [List.mem_append] at he
    rcases he with he | he
    · rw [List.mem_append] at he
      rcases he with he | he
      · exact handleStep_emitted_wf _ _ _ h5 e he
      · exact handleStep_emitted_wf _ _ _ h30 e he
    · exact handleStep_emitted_wf _ _ _ h240 e he
  · refine ⟨handleStep_state_mapWF _ _ _ h5 hc, handleStep_state_mapWF _ _ _ h30 hc,
      h240, ?_⟩
    intro e he
    rw [List.mem_append] at he
    rcases he with he | he
    · exact handleStep_emitted_wf _ _ _ h5 e he
    · exact handleStep_emitted_wf _ _ _ h30 e he
  · exact ⟨handleStep_state_mapWF _ _ _ h5 hc, h30, h240,
      fun e he => handleStep_emitted_wf _ _ _ h5 e he⟩

theorem procStep_wf (acc : ProcState × List Candle × Bool) (c : Candle)
    (hacc : procWF acc) (hc : candleWF c) : procWF (procStep acc c) := by
  obtain ⟨ps, em, ok⟩ := acc
  obtain ⟨h5, h30, h240, hem⟩ := hacc
  cases ok
  · exact ⟨h5, h30, h240, hem⟩
  · by_cases hw : inWorkInterval c.time = true
    · have hi := ingestTrade_wf ps c h5 h30 h240 hc
      rcases hq : ingestTrade ps c with ⟨ps2, em2, ok2⟩
      rw [hq] at hi
      simp only [procStep, if_pos, hw, hq]
      refine ⟨hi.1, hi.2.1, hi.2.2.1, ?_⟩
      intro e he
      rw [List.mem_append] at he
      rcases he with he | he
      · exact hem e he
      · exact hi.2.2.2 e he
    · rw [Bool.not_eq_true] at hw
      rw [procStep_skip _ c hw]
      exact ⟨h5, h30, h240, hem⟩

theorem foldl_procStep_wf (l : List Candle) :
    ∀ acc, procWF acc → (∀ c ∈ l, candleWF c) →
      procWF (l.foldl procStep acc) := by
  induction l with
  | nil => intro acc hacc _; exact hacc
  | cons c tl ih =>
    intro acc hacc hl
    rw [List.foldl_cons]
    exact ih _ (procStep_wf acc c hacc (hl c (List.mem_cons_self c tl)))
      fun x hx => hl x (List.mem_cons_of_mem c hx)

/-- C4: `makeCandle` builds every parsed trade with its four prices equal,
and on any stream of such trades every candle emitted by the full
`processing` run (rollover emissions and final flush alike) satisfies
`low ≤ open ≤ high` and `low ≤ close ≤ high`. -/
theorem ohlc_invariant :
    (∀ (r : String) (c : Candle), makeCandle r = some (Except.ok c) →
      c.maxPrice = c.openPrice ∧ c.minPrice = c.openPrice ∧
        c.closePrice = c.openPrice) ∧
    (∀ trades : List Candle,
      (∀ c ∈ trades, c.maxPrice = c.openPrice ∧ c.minPrice = c.openPrice ∧
        c.closePrice = c.openPrice) →
      ∀ e ∈ (processing trades).2.1, candleWF e) := by
  constructor
  · intro r c h
    simp only [makeCandle] at h
    rcases h1 : (splitComma r)[1]? with _ | priceStr <;>
      rw [h1] at h <;> dsimp only at h
    · exact absurd h (by simp)
    · rcases h2 : parseFloat priceStr with _ | pr <;>
        rw [h2] at h <;> dsimp only at h
      · exact absurd h (by simp)
      · rcases h3 : (splitComma r)[3]? with _ | timeStr <;>
          rw [h3] at h <;> dsimp only at h
        · exact absurd h (by simp)
        · rcases h4 : parseTimestamp timeStr with _ | t <;>
            rw [h4] at h <;> dsimp only at h
          · exact absurd h (by simp)
          · simp only [Option.some.injEq, Except.ok.injEq] at h
            subst h
            exact ⟨rfl, rfl, rfl⟩
  · intro trades htr
    have hwf : ∀ c ∈ trades, candleWF c := by
      intro c hc
      obtain ⟨e1, e2, e3⟩ := htr c hc
      exact ⟨le_of_eq e2, le_of_eq e1.symm, by rw [e2, e3], le_of_eq (e3.trans e1.symm)⟩
    have hrun : procWF (runProcessing trades) :=
      foldl_procStep_wf trades (initProc, [], true)
        ⟨fun p hp => absurd hp (List.not_mem_nil p),
         fun p hp => absurd hp (List.not_mem_nil p),
         fun p hp => absurd hp (List.not_mem_nil p),
         fun x hx => absurd hx (List.not_mem_nil x)⟩ hwf
    rcases hq : runProcessing trades with ⟨ps, em, ok⟩
    rw [hq] at hrun
    obtain ⟨h5, h30, h240, hem⟩ := hrun
    cases ok
    · rw [processing_run_false trades ps em hq]
      exact hem
    · rw [processing_run_true trades ps em hq]
      have hsent : candleWF sentinel := ⟨le_refl 0, le_refl 0, le_refl 0, le_refl 0⟩
      have hi := ingestTrade_wf ps sentinel h5 h30 h240 hsent
      intro e he
      rw [List.mem_append] at he
      rcases he with he | he
      · exact hem e he
      · exact hi.2.2.2 e he

/-- Witness for C4: the flush candle produced from a single trade for `X`
at price 10 satisfies the OHLC invariant. -/
theorem ohlc_invariant_witness :
    candleWF ⟨"X", 10, 10, 10, 10, 1548831600, 0⟩ :=
  ohlc_invariant.2 [⟨"X", 10, 10, 10, 10, 1548831600, 3⟩]
    (by
      intro c hc
      rw [List.mem_singleton] at hc
      subst hc
      exact ⟨rfl, rfl, rfl⟩)
    ⟨"X", 10, 10, 10, 10, 1548831600, 0⟩
    (by norm_num [processing, runProcessing, procStep, ingestTrade, handleStep,
      inWorkInterval, sleep, numMin, sleepStart, sleepEnd, secPerDay, minutesOf,
      diffMoreThanScale, sendCandles, updateCandle, scaleOfDuration, initProc,
      initAgg, startEpoch, Five, Thirty, TwoHForty, Unknown, updatePrice,
      List.lookup, sentinel, (show ("X" : String) ≠ "" from by decide)])

theorem handleStep_emitted_tag (d : Int) (s : AggState) (c : Candle) :
    ∀ e ∈ (handleStep d s c).emitted,
      e.time = s.startTime ∧ e.scale = scaleOfDuration d := by
  simp only [handleStep]
  split_ifs <;> intro e he <;>
    first
      | exact absurd he (List.not_mem_nil e)
      | (rw [sendCandles, List.mem_map] at he
         obtain ⟨p, hp, rfl⟩ := he
         exact ⟨rfl, rfl⟩)

theorem handleStep_transition (d : Int) (hd : 0 ≤ d) (s : AggState)
    (c : Candle) :
    (handleStep d s c).state.startTime = s.startTime ∨
      (handleStep d s c).state.startTime = s.startTime + d ∨
      ((handleStep d s c).state.startTime = c.time ∧
        s.startTime + 2 * d ≤ c.time) := by
  simp only [handleStep]
  split_ifs with h1 h2 h3 h4
  · right; right
    refine ⟨rfl, ?_⟩
    rw [diffMoreThanScale_eq_true_iff _ _ hd] at h3
    have hq : (2 * d : ℚ) ≤ ((c.time - s.startTime : Int) : ℚ) := by
      unfold minutesOf at h3
      push_cast at h3 ⊢
      linarith
    have : (2 * d : Int) ≤ c.time - s.startTime := by exact_mod_cast hq
    linarith
  · right; left; rfl
  · left; rfl
  · left; rfl
  · left; rfl

theorem handleStep_startTime_le (d : Int) (hd : 0 < d) (s : AggState)
    (c : Candle) : s.startTime ≤ (handleStep d s c).state.startTime := by
  rcases handleStep_transition d hd.le s c with h | h | h
  · rw [h]
  · rw [h]; linarith
  · rw [h.1]; linarith [h.2]

theorem chain'_le_of_const (l : List Int) (a : Int) (h : ∀ x ∈ l, x = a) :
    List.Chain' (· ≤ ·) l := by
  induction l with
  | nil => exact List.chain'_nil
  | cons x tl ih =>
    rw [List.chain'_cons']
    refine ⟨?_, ih fun y hy => h y (List.mem_cons_of_mem x hy)⟩
    intro y hy
    have hmem : y ∈ tl := List.mem_of_mem_head? hy
    rw [h x (List.mem_cons_self x tl), h y (List.mem_cons_of_mem x hmem)]

theorem aggStep_inv (d : Int) (hd : 0 < d)
    (acc : AggState × List Candle × Bool) (c : Candle)
    (h : List.Chain' (· ≤ ·) (acc.2.1.map Candle.time) ∧
      ∀ e ∈ acc.2.1, e.time ≤ acc.1.startTime) :
    List.Chain' (· ≤ ·) ((aggStep d acc c).2.1.map Candle.time) ∧
      ∀ e ∈ (aggStep d acc c).2.1, e.time ≤ (aggStep d acc c).1.startTime := by
  obtain ⟨s, em, ok⟩ := acc
  obtain ⟨hch, hle⟩ := h
  cases ok
  · exact ⟨hch, hle⟩
  · simp only [aggStep, ite_true]
    have htag := handleStep_emitted_tag d s c
    have hmono := handleStep_startTime_le d hd s c
    constructor
    · rw [List.map_append]
      refine List.Chain'.append hch
        (chain'_le_of_const _ s.startTime ?_) ?_
      · intro x hx
        rw [List.mem_map] at hx
        obtain ⟨e, he, rfl⟩ := hx
        exact (htag e he).1
      · intro x hx y hy
        have hx2 : x ∈ em.map Candle.time := by
          obtain ⟨hne, he⟩ := List.mem_getLast?_eq_getLast hx
          rw [he]
          exact List.getLast_mem hne
        have hy2 : y ∈ (handleStep d s c).emitted.map Candle.time :=
          List.mem_of_mem_head? hy
        rw [List.mem_map] at hx2 hy2
        obtain ⟨e1, he1, rfl⟩ := hx2
        obtain ⟨e2, he2, rfl⟩ := hy2
        rw [(htag e2 he2).1]
        exact hle e1 he1
    · intro e he
      rw [List.mem_append] at he
      rcases he with he | he
      · exact le_trans (hle e he) hmono
      · rw [(htag e he).1]
        exact hmono

/-- C5: for a fixed resolution `d > 0`, a handler transition leaves the
window start unchanged, advances it by exactly `d`, or resyncs it to the
trade's timestamp at least `2 d` ahead — so it never decreases — and over
any (timestamp-sorted) trade sequence delivered to one aggregator the
emitted candles carry non-decreasing `windowStart` values. -/
theorem window_monotonicity (d : Int) (hd : 0 < d) :
    (∀ (s : AggState) (c : Candle),
      (handleStep d s c).state.startTime = s.startTime ∨
        (handleStep d s c).state.startTime = s.startTime + d ∨
        ((handleStep d s c).state.startTime = c.time ∧
          s.startTime + 2 * d ≤ c.time)) ∧
    (∀ (s : AggState) (c : Candle),
      s.startTime ≤ (handleStep d s c).state.startTime) ∧
    (∀ trades : List Candle,
      List.Chain' (fun a b => a.time ≤ b.time) trades →
      List.Chain' (· ≤ ·) ((runAgg d trades).2.1.map Candle.time)) := by
  refine ⟨fun s c => handleStep_transition d hd.le s c,
    fun s c => handleStep_startTime_le d hd s c, ?_⟩
  intro trades _
  suffices h : ∀ (l : List Candle) (acc : AggState × List Candle × Bool),
      (List.Chain' (· ≤ ·) (acc.2.1.map Candle.time) ∧
        ∀ e ∈ acc.2.1, e.time ≤ acc.1.startTime) →
      List.Chain' (· ≤ ·) ((l.foldl (aggStep d) acc).2.1.map Candle.time) ∧
        ∀ e ∈ (l.foldl (aggStep d) acc).2.1,
          e.time ≤ (l.foldl (aggStep d) acc).1.startTime by
    exact (h trades (initAgg, [], true)
      ⟨List.chain'_nil, fun e he => absurd he (List.not_mem_nil e)⟩).1
  intro l
  induction l with
  | nil => intro acc h; exact h
  | cons c tl ih =>
    intro acc h
    rw [List.foldl_cons]
    exact ih _ (aggStep_inv d hd acc c h)

/-- Witness for C5: a 5-minute aggregator fed three sorted trades (two in
the first window, one two hours later forcing a resync and emission)
produces emissions with non-decreasing window starts. -/
theorem window_monotonicity_witness :
    List.Chain' (· ≤ ·)
      ((runAgg 300
        [⟨"X", 10, 10, 10, 10, 1548831600, 3⟩,
         ⟨"X", 12, 12, 12, 12, 1548831660, 3⟩,
         ⟨"X", 9, 9, 9, 9, 1548838800, 3⟩]).2.1.map Candle.time) :=
  (window_monotonicity 300 (by norm_num)).2.2
    [⟨"X", 10, 10, 10, 10, 1548831600, 3⟩,
     ⟨"X", 12, 12, 12, 12, 1548831660, 3⟩,
     ⟨"X", 9, 9, 9, 9, 1548838800, 3⟩]
    (by norm_num [List.chain'_cons, List.chain'_singleton])

theorem lookup_isSome_iff (m : List (String × Candle)) (k : String) :
    (m.lookup k).isSome ↔ k ∈ m.map Prod.fst := by
  induction m with
  | nil => simp [List.lookup]
  | cons a tl ih =>
    obtain ⟨ka, va⟩ := a
    by_cases h : ka = k
    · subst h
      simp [List.lookup]
    · have hb : (k == ka) = false := beq_eq_false_iff_ne.mpr (Ne.symm h)
      simp [List.lookup, hb, ih, Ne.symm h]

theorem updateCandle_goodMap (m : List (String × Candle)) (c : Candle)
    (h : goodMap m) : goodMap (updateCandle m c) := by
  obtain ⟨hnd, htk⟩ := h
  unfold updateCandle
  split_ifs with hs
  · constructor
    · rw [List.map_map]
      have hfst : (Prod.fst ∘ fun p : String × Candle =>
          if p.1 = c.ticker then (p.1, updatePrice p.2 c) else p) = Prod.fst := by
        funext p
        by_cases h2 : p.1 = c.ticker
        · simp [h2]
        · simp [h2]
      rw [hfst]
      exact hnd
    · intro p hp
      rw [List.mem_map] at hp
      obtain ⟨q, hq, rfl⟩ := hp
      by_cases h2 : q.1 = c.ticker
      · rw [if_pos h2]
        exact htk q hq
      · rw [if_neg h2]
        exact htk q hq
  · have hkey : c.ticker ∉ m.map Prod.fst := by
      intro hmem
      exact hs ((lookup_isSome_iff m c.ticker).mpr hmem)
    constructor
    · rw [List.map_append, List.nodup_append]
      refine ⟨hnd, List.nodup_singleton _, ?_⟩
      intro a ha hb
      rw [List.map_singleton, List.mem_singleton] at hb
      subst hb
      exact hkey ha
    · intro p hp
      rw [List.mem_append] at hp
      rcases hp with hp | hp
      · exact htk p hp
      · rw [List.mem_singleton] at hp
        rw [hp]
    
theorem handleStep_goodMap (d : Int) (s : AggState) (c : Candle)
    (h : goodMap s.candles) : goodMap (handleStep d s c).state.candles := by
  have hnil : goodMap [] :=
    ⟨List.nodup_nil, fun p hp => absurd hp (List.not_mem_nil p)⟩
  simp only [handleStep]
  split_ifs
  · exact updateCandle_goodMap _ _ hnil
  · exact updateCandle_goodMap _ _ hnil
  · exact hnil
  · exact updateCandle_goodMap _ _ h
  · exact hnil

theorem ingestTrade_goodMap (ps : ProcState) (c : Candle)
    (h5 : goodMap ps.a5.candles) (h30 : goodMap ps.a30.candles)
    (h240 : goodMap ps.a240.candles) :
    goodMap (ingestTrade ps c).1.a5.candles ∧
      goodMap (ingestTrade ps c).1.a30.candles ∧
      goodMap (ingestTrade ps c).1.a240.candles := by
  simp only [ingestTrade]
  split_ifs
  · exact ⟨handleStep_goodMap _ _ _ h5, handleStep_goodMap _ _ _ h30,
      handleStep_goodMap _ _ _ h240⟩
  · exact ⟨handleStep_goodMap _ _ _ h5, handleStep_goodMap _ _ _ h30, h240⟩
  · exact ⟨handleStep_goodMap _ _ _ h5, h30, h240⟩

theorem procStep_goodMap (acc : ProcState × List Candle × Bool) (c : Candle)
    (h : goodMap acc.1.a5.candles ∧ goodMap acc.1.a30.candles ∧
      goodMap acc.1.a240.candles) :
    goodMap (procStep acc c).1.a5.candles ∧
      goodMap (procStep acc c).1.a30.candles ∧
      goodMap (procStep acc c).1.a240.candles := by
  obtain ⟨ps, em, ok⟩ := acc
  obtain ⟨h5, h30, h240⟩ := h
  cases ok
  · exact ⟨h5, h30, h240⟩
  · by_cases hw : inWorkInterval c.time = true
    · have hi := ingestTrade_goodMap ps c h5 h30 h240
      rcases hq : ingestTrade ps c with ⟨ps2, em2, ok2⟩
      rw [hq] at hi
      simp only [procStep, ite_true, hw, hq]
      exact hi
    · rw [Bool.not_eq_true] at hw
      rw [procStep_skip _ c hw]
      exact ⟨h5, h30, h240⟩

theorem handleStep_sentinel (d : Int) (s : AggState) (c : Candle)
    (h : c.ticker = "") :
    handleStep d s c =
      { state := { startTime := s.startTime, candles := [] }
        emitted := sendCandles s.candles s.startTime (scaleOfDuration d)
        signaled := true } := by
  simp only [handleStep]
  rw [if_neg (by simp [h])]

theorem sendCandles_ticker_map (m : List (String × Candle)) (st : Int)
    (sc : Nat) (h : ∀ p ∈ m, p.2.ticker = p.1) :
    (sendCandles m st sc).map Candle.ticker = m.map Prod.fst := by
  unfold sendCandles
  rw [List.map_map]
  exact List.map_congr_left fun p hp => h p hp

/-- C8: the sentinel (empty-ticker) trade makes a handler emit every open
candle tagged with the current window start and the aggregator's
resolution and clear the map; a second flush therefore emits nothing; on a
well-formed map each residual ticker appears in the flush output exactly
once; and the maps reached by the trade loop are always well-formed. -/
theorem flush_semantics :
    (∀ (d : Int) (s : AggState) (c : Candle), c.ticker = "" →
      handleStep d s c =
        { state := { startTime := s.startTime, candles := [] }
          emitted := sendCandles s.candles s.startTime (scaleOfDuration d)
          signaled := true }) ∧
    (∀ (d : Int) (s : AggState) (c c2 : Candle),
      c.ticker = "" → c2.ticker = "" →
      (handleStep d (handleStep d s c).state c2).emitted = []) ∧
    (∀ (m : List (String × Candle)) (st : Int) (sc : Nat) (k : String),
      goodMap m →
      (((sendCandles m st sc).map Candle.ticker).count k =
        if k ∈ m.map Prod.fst then 1 else 0) ∧
      ∀ e ∈ sendCandles m st sc, e.time = st ∧ e.scale = sc) ∧
    (∀ trades : List Candle,
      goodMap (runProcessing trades).1.a5.candles ∧
        goodMap (runProcessing trades).1.a30.candles ∧
        goodMap (runProcessing trades).1.a240.candles) := by
  refine ⟨fun d s c h => handleStep_sentinel d s c h, ?_, ?_, ?_⟩
  · intro d s c c2 h h2
    rw [handleStep_sentinel d s c h, handleStep_sentinel d _ c2 h2]
    rfl
  · intro m st sc k hg
    obtain ⟨hnd, htk⟩ := hg
    constructor
    · rw [sendCandles_ticker_map m st sc htk]
      by_cases hmem : k ∈ m.map Prod.fst
      · rw [if_pos hmem]
        exact List.count_eq_one_of_mem hnd hmem
      · rw [if_neg hmem]
        exact List.count_eq_zero_of_not_mem hmem
    · intro e he
      rw [sendCandles, List.mem_map] at he
      obtain ⟨p, hp, rfl⟩ := he
      exact ⟨rfl, rfl⟩
  · intro trades
    suffices h : ∀ (l : List Candle) (acc : ProcState × List Candle × Bool),
        (goodMap acc.1.a5.candles ∧ goodMap acc.1.a30.candles ∧
          goodMap acc.1.a240.candles) →
        goodMap (l.foldl procStep acc).1.a5.candles ∧
          goodMap (l.foldl procStep acc).1.a30.candles ∧
          goodMap (l.foldl procStep acc).1.a240.candles by
      have hnil : goodMap [] :=
        ⟨List.nodup_nil, fun p hp => absurd hp (List.not_mem_nil p)⟩
      exact h trades (initProc, [], true) ⟨hnil, hnil, hnil⟩
    intro l
    induction l with
    | nil => intro acc h; exact h
    | cons c tl ih =>
      intro acc h
      rw [List.foldl_cons]
      exact ih _ (procStep_goodMap acc c h)

/-- Witness for C8: flushing an aggregator holding one open candle for
`X` emits exactly that candle tagged with the current window start and
the 5-minute scale, and clears the state. -/
theorem flush_semantics_witness :
    handleStep 300
      { startTime := 1548831600
        candles := [("X", ⟨"X", 10, 12, 9, 9, 1548831700, 3⟩)] } sentinel =
      { state := { startTime := 1548831600, candles := [] }
        emitted := [⟨"X", 10, 12, 9, 9, 1548831600, 0⟩]
        signaled := true } := by
  rw [flush_semantics.1 300
    { startTime := 1548831600
      candles := [("X", ⟨"X", 10, 12, 9, 9, 1548831700, 3⟩)] } sentinel rfl]
  rfl

theorem ingestTrade_scales (ps : ProcState) (c : Candle) :
    ∀ e ∈ (ingestTrade ps c).2.1,
      e.scale = Five ∨ e.scale = Thirty ∨ e.scale = TwoHForty := by
  have h5 : scaleOfDuration 300 = Five := by decide
  have h30 : scaleOfDuration 1800 = Thirty := by decide
  have h240 : scaleOfDuration 14400 = TwoHForty := by decide
  simp only [ingestTrade]
  split_ifs <;> intro e he
  · rw [List.mem_append] at he
    rcases he with he | he
    · rw [List.mem_append] at he
      rcases he with he | he
      · exact Or.inl (h5 ▸ (handleStep_emitted_tag 300 ps.a5 c e he).2)
      · exact Or.inr (Or.inl (h30 ▸ (handleStep_emitted_tag 1800 ps.a30 c e he).2))
    · exact Or.inr (Or.inr (h240 ▸ (handleStep_emitted_tag 14400 ps.a240 c e he).2))
  · rw [List.mem_append] at he
    rcases he with he | he
    · exact Or.inl (h5 ▸ (handleStep_emitted_tag 300 ps.a5 c e he).2)
    · exact Or.inr (Or.inl (h30 ▸ (handleStep_emitted_tag 1800 ps.a30 c e he).2))
  · exact Or.inl (h5 ▸ (handleStep_emitted_tag 300 ps.a5 c e he).2)

theorem procStep_scales (acc : ProcState × List Candle × Bool) (c : Candle)
    (h : ∀ x ∈ acc.2.1, x.scale = Five ∨ x.scale = Thirty ∨ x.scale = TwoHForty) :
    ∀ x ∈ (procStep acc c).2.1,
      x.scale = Five ∨ x.scale = Thirty ∨ x.scale = TwoHForty := by
  obtain ⟨ps, em, ok⟩ := acc
  cases ok
  · exact h
  · by_cases hw : inWorkInterval c.time = true
    · have hi := ingestTrade_scales ps c
      rcases hq : ingestTrade ps c with ⟨ps2, em2, ok2⟩
      rw [hq] at hi
      simp only [procStep, ite_true, hw, hq]
      intro x hx
      rw [List.mem_append] at hx
      rcases hx with hx | hx
      · exact h x hx
      · exact hi x hx
    · rw [Bool.not_eq_true] at hw
      rw [procStep_skip _ c hw]
      exact h

theorem processing_scales (trades : List Candle) :
    ∀ e ∈ (processing trades).2.1,
      e.scale = Five ∨ e.scale = Thirty ∨ e.scale = TwoHForty := by
  have hrunlem : ∀ (l : List Candle) (acc : ProcState × List Candle × Bool),
      (∀ x ∈ acc.2.1, x.scale = Five ∨ x.scale = Thirty ∨ x.scale = TwoHForty) →
      ∀ x ∈ (l.foldl procStep acc).2.1,
        x.scale = Five ∨ x.scale = Thirty ∨ x.scale = TwoHForty := by
    intro l
    induction l with
    | nil => intro acc h; exact h
    | cons c tl ih =>
      intro acc h
      rw [List.foldl_cons]
      exact ih _ (procStep_scales acc c h)
  rcases hq : runProcessing trades with ⟨ps, em, ok⟩
  have hem : ∀ x ∈ em, x.scale = Five ∨ x.scale = Thirty ∨ x.scale = TwoHForty := by
    have h := hrunlem trades (initProc, [], true)
      (fun x hx => absurd hx (List.not_mem_nil x))
    rw [runProcessing] at hq
    rw [hq] at h
    exact h
  cases ok
  · rw [processing_run_false trades ps em (by rw [runProcessing]; exact hq)]
    exact hem
  · rw [processing_run_true trades ps em (by rw [runProcessing]; exact hq)]
    intro e he
    rw [List.mem_append] at he
    rcases he with he | he
    · exact hem e he
    · exact ingestTrade_scales ps sentinel e he

/-- C9: `toSlice` serializes a candle as the ordered field list ticker,
RFC3339 window start, open, high, low, close; the three output files are
indexed by the scale constants in that order; and every candle emitted by
`processing` carries one of the three known scales and is routed by the
`write` switch to the file of exactly that scale. -/
theorem serialization_and_routing :
    (∀ c : Candle,
      toSlice c =
        [c.ticker, formatRFC3339 c.time, formatFloat c.openPrice,
          formatFloat c.maxPrice, formatFloat c.minPrice,
          formatFloat c.closePrice]) ∧
    (fileNames[Five]? = some "candles_5min.csv" ∧
      fileNames[Thirty]? = some "candles_30min.csv" ∧
      fileNames[TwoHForty]? = some "candles_240min.csv") ∧
    (∀ (trades : List Candle) (e : Candle), e ∈ (processing trades).2.1 →
      writeTarget e = some e.scale ∧
        (e.scale = Five ∨ e.scale = Thirty ∨ e.scale = TwoHForty)) := by
  refine ⟨fun c => rfl, ⟨rfl, rfl, rfl⟩, ?_⟩
  intro trades e he
  have hsc := processing_scales trades e he
  refine ⟨?_, hsc⟩
  unfold writeTarget
  rcases hsc with h | h | h <;> rw [h] <;> decide

/-- Witness for C9: the flush candle of a one-trade run is routed to the
5-minute file index. -/
theorem serialization_and_routing_witness :
    writeTarget ⟨"X", 10, 10, 10, 10, 1548831600, 0⟩ = some Five ∧
      (Five = Five ∨ Five = Thirty ∨ Five = TwoHForty) :=
  serialization_and_routing.2.2 [⟨"X", 10, 10, 10, 10, 1548831600, 3⟩]
    ⟨"X", 10, 10, 10, 10, 1548831600, 0⟩
    (by norm_num [processing, runProcessing, procStep, ingestTrade, handleStep,
      inWorkInterval, sleep, numMin, sleepStart, sleepEnd, secPerDay, minutesOf,
      diffMoreThanScale, sendCandles, updateCandle, scaleOfDuration, initProc,
      initAgg, startEpoch, Five, Thirty, TwoHForty, Unknown, updatePrice,
      List.lookup, sentinel, (show ("X" : String) ≠ "" from by decide)])

/-- Counterexample for C10: the line `A,xyz` has fewer than 4
comma-separated fields, yet `makeCandle` does not panic on it — the price
parse fails first and the error value is returned. -/
theorem makeCandle_short_line_counterexample :
    (splitComma "A,xyz").length < 4 ∧
      makeCandle "A,xyz" =
        some (Except.error "cannot convert price string into float64") :=
  ⟨by decide, by rfl⟩

/-- C10 (amended): `makeCandle` panics (index out of range, modelled as
`none`) on every line with fewer than 2 comma-separated fields, and on
every line with fewer than 4 fields whose price field parses as a float;
a short line whose price field does not parse instead returns the price
error value. -/
theorem makeCandle_short_line_amended :
    (∀ r : String, (splitComma r).length < 2 → makeCandle r = none) ∧
    (∀ (r s : String) (q : ℚ), (splitComma r).length < 4 →
      (splitComma r)[1]? = some s → parseFloat s = some q →
      makeCandle r = none) ∧
    (∀ r s : String, (splitComma r)[1]? = some s → parseFloat s = none →
      makeCandle r =
        some (Except.error "cannot convert price string into float64")) := by
  refine ⟨?_, ?_, ?_⟩
  · intro r h
    have h1 : (splitComma r)[1]? = none := List.getElem?_eq_none (by omega)
    simp only [makeCandle]
    rw [h1]
  · intro r s q hlen h1 hq
    have h3 : (splitComma r)[3]? = none := List.getElem?_eq_none (by omega)
    simp only [makeCandle]
    rw [h1]
    dsimp only
    rw [hq]
    dsimp only
    rw [h3]
  · intro r s h1 hp
    simp only [makeCandle]
    rw [h1]
    dsimp only
    rw [hp]

/-- Witness for C10 (amended): a single-field line panics at the price
index, and a two-field line with a parseable price panics at the
timestamp index. -/
theorem makeCandle_short_line_amended_witness :
    makeCandle "A" = none ∧ makeCandle "A,12.5" = none :=
  ⟨makeCandle_short_line_amended.1 "A" (by decide),
   makeCandle_short_line_amended.2.1 "A,12.5" "12.5" (125 / 10) (by decide)
     (by decide) (by with_unfolding_all decide)⟩
